import Mathlib

set_option autoImplicit false

/-!
Verification of `luqum/elasticsearch/visitor.py` (class `ElasticsearchQueryBuilder`):
the compiler from a parsed Lucene query tree to Elasticsearch query-DSL items.

The Lucene AST (`luqum.tree`) and the ES item model (`luqum.elasticsearch.tree`)
are external to the source under verification; they are modelled from the spec
(sections 3 and 4.1) where noted.  Everything else is translated directly from
`visitor.py`.
-/

namespace Luqum

/-- Modelled from the spec (section 3): the input Lucene AST, a discriminated union
over node kinds.  Each node exposes its children; leaf payloads are the literal
value, range bounds with inclusivity flags, modifier degree, or field name.
Boost `force` and Fuzzy/Proximity `degree` are carried as exact rationals (the
source applies Python `float` to a literal; the numeric value is carried
verbatim here).  `Range` stores its two bound words as strings (`node.low.value`
and `node.high.value` in the source); a bound word contains no `SearchField`, so
it is not listed among the children. -/
inductive LNode where
  | word (value : String)
  | phrase (value : String)
  | range (low high : String) (include_low include_high : Bool)
  | andOp (children : List LNode)
  | orOp (children : List LNode)
  | unknownOp (children : List LNode)
  | lnot (children : List LNode)
  | prohibit (children : List LNode)
  | plus (children : List LNode)
  | boost (force : Rat) (children : List LNode)
  | fuzzy (degree : Rat) (children : List LNode)
  | proximity (degree : Rat) (children : List LNode)
  | group (children : List LNode)
  | fieldGroup (children : List LNode)
  | searchField (name : String) (children : List LNode)

/-- The node kind: stands for the Python runtime class of a node.
`type(child) is type(current_node)` in the source is `kind` equality here. -/
inductive LKind where
  | kWord | kPhrase | kRange | kAnd | kOr | kUnknown | kNot | kProhibit | kPlus
  | kBoost | kFuzzy | kProximity | kGroup | kFieldGroup | kSearchField
deriving Repr, DecidableEq

def LNode.kind : LNode → LKind
  | .word _ => .kWord
  | .phrase _ => .kPhrase
  | .range _ _ _ _ => .kRange
  | .andOp _ => .kAnd
  | .orOp _ => .kOr
  | .unknownOp _ => .kUnknown
  | .lnot _ => .kNot
  | .prohibit _ => .kProhibit
  | .plus _ => .kPlus
  | .boost _ _ => .kBoost
  | .fuzzy _ _ => .kFuzzy
  | .proximity _ _ => .kProximity
  | .group _ => .kGroup
  | .fieldGroup _ => .kFieldGroup
  | .searchField _ _ => .kSearchField

/-- `node.children` of the Lucene AST. -/
def LNode.children : LNode → List LNode
  | .word _ => []
  | .phrase _ => []
  | .range _ _ _ _ => []
  | .andOp cs => cs
  | .orOp cs => cs
  | .unknownOp cs => cs
  | .lnot cs => cs
  | .prohibit cs => cs
  | .plus cs => cs
  | .boost _ cs => cs
  | .fuzzy _ cs => cs
  | .proximity _ cs => cs
  | .group cs => cs
  | .fieldGroup cs => cs
  | .searchField _ cs => cs

-- Number of nodes in a tree (termination measure for the traversals).
mutual
def LNode.nsize : LNode → Nat
  | .word _ => 1
  | .phrase _ => 1
  | .range _ _ _ _ => 1
  | .andOp cs => 1 + nsizeList cs
  | .orOp cs => 1 + nsizeList cs
  | .unknownOp cs => 1 + nsizeList cs
  | .lnot cs => 1 + nsizeList cs
  | .prohibit cs => 1 + nsizeList cs
  | .plus cs => 1 + nsizeList cs
  | .boost _ cs => 1 + nsizeList cs
  | .fuzzy _ cs => 1 + nsizeList cs
  | .proximity _ cs => 1 + nsizeList cs
  | .group cs => 1 + nsizeList cs
  | .fieldGroup cs => 1 + nsizeList cs
  | .searchField _ cs => 1 + nsizeList cs

def nsizeList : List LNode → Nat
  | [] => 0
  | c :: rest => LNode.nsize c + nsizeList rest
end

theorem nsize_pos (n : LNode) : 1 ≤ n.nsize := by
  cases n <;> simp [LNode.nsize]

theorem nsizeList_children_lt (n : LNode) : nsizeList n.children < n.nsize := by
  cases n <;> simp [LNode.children, LNode.nsize, nsizeList]

theorem nsize_mem {c : LNode} {l : List LNode} (h : c ∈ l) : c.nsize ≤ nsizeList l := by
  induction l with
  | nil => cases h
  | cons x rest ih =>
    rcases List.mem_cons.mp h with h1 | h2
    · subst h1; simp only [nsizeList]; omega
    · have := ih h2; simp only [nsizeList]; omega

theorem nsizeList_append (a b : List LNode) :
    nsizeList (a ++ b) = nsizeList a + nsizeList b := by
  induction a with
  | nil => simp [nsizeList]
  | cons x rest ih => simp [nsizeList, ih]; omega

/-- `ElasticsearchQueryBuilder.simplify_if_same`: if a child of the current node
has the very same operation type, splice the child's children in instead,
recursively.  The source takes the current node and compares runtime classes;
here the current node's kind `k` is passed. -/
def simplify_if_same (k : LKind) : List LNode → List LNode
  | [] => []
  | c :: rest =>
    if c.kind = k then
      simplify_if_same k c.children ++ simplify_if_same k rest
    else
      c :: simplify_if_same k rest
termination_by l => nsizeList l
decreasing_by
  all_goals
    first
    | (have h1 := nsizeList_children_lt c
       have h2 := nsize_pos c
       simp only [nsizeList]
       omega)

theorem nsize_mem_simplify_aux (k : LKind) (l : List LNode) :
    nsizeList (simplify_if_same k l) ≤ nsizeList l := by
  induction l using simplify_if_same.induct k with
  | case1 => simp [simplify_if_same]
  | case2 c rest hk ih1 ih2 =>
    rw [simplify_if_same]
    simp only [hk, if_true]
    rw [nsizeList_append]
    have h1 := nsizeList_children_lt c
    simp only [nsizeList]
    omega
  | case3 c rest hk ih =>
    rw [simplify_if_same]
    simp only [hk, if_false]
    simp only [nsizeList]
    omega

theorem nsizeList_simplify_le (k : LKind) (l : List LNode) :
    nsizeList (simplify_if_same k l) ≤ nsizeList l :=
  nsize_mem_simplify_aux k l

theorem nsize_mem_simplify {c : LNode} {k : LKind} {l : List LNode}
    (h : c ∈ simplify_if_same k l) : c.nsize ≤ nsizeList l :=
  le_trans (nsize_mem h) (nsizeList_simplify_le k l)

/-- Modelled from the spec (sections 3, 4.1, 6): the query items produced by the
compiler (`luqum.elasticsearch.tree`, outside the compiled source).  Leaf items
(`EWord`, `EPhrase`, `ERange`) are the `AbstractEItem` instances of the source;
composite items hold a list of sub-items, `ENested` wraps a single sub-item
together with its `nested_path`.  `enull` stands for Python `None`, which
`visit_unknown_operation` returns when `default_operator` is unrecognized.
The mutable attributes (`fields`, `boost`, `fuzziness`, `slop`) set
post-construction by the visitor are grouped in `Attrs`; Python attribute
assignment succeeds on any object, so every item carries the record. -/
structure Attrs where
  fields : List String := []
  default_field : String := "text"
  boost : Option Rat := none
  fuzziness : Option Rat := none
  slop : Option Rat := none
deriving Repr, DecidableEq

inductive EItem where
  | eword (q : String) (a : Attrs)
  | ephrase (phrase : String) (a : Attrs)
  | erange (gte gt lte lt : Option String) (a : Attrs)
  | emust (items : List EItem) (a : Attrs)
  | eshould (items : List EItem) (a : Attrs)
  | emustNot (items : List EItem) (a : Attrs)
  | enested (nested_path : String) (item : EItem) (a : Attrs)
  | enull

/-- The default attribute record a freshly built item carries. -/
def defaultAttrs : Attrs := {}

/-- Errors a compilation can end in.  `orAndAndOnSameLevel` is the
`OrAndAndOnSameLevel` exception; the source attaches a textual extract computed
by `_get_operator_extract` from `str(child)` (the AST renderer lives outside the
compiled source), so the offending child node itself is carried here.
`attributeError` / `indexError` model the Python `AttributeError` / `IndexError`
that attribute access on `None` or a missing child would raise. -/
inductive ESError where
  | orAndAndOnSameLevel (child : LNode)
  | attributeError
  | indexError

/-- `ElasticsearchQueryBuilder` construction-time state.  The
`not_analyzed_fields` / `nested_fields` options are only forwarded to the item
factory, which consults them for wire serialization — outside every claim —
so they are omitted here. -/
structure Builder where
  default_operator : String := "should"
  default_field : String := "text"

/-- `ElasticsearchQueryBuilder._is_must`: the node is an `AndOperation`, or an
`UnknownOperation` while the default operator is MUST. -/
def is_must (b : Builder) (operation : LNode) : Bool :=
  match operation with
  | .andOp _ => true
  | .unknownOp _ => b.default_operator == "must"
  | _ => false

/-- `ElasticsearchQueryBuilder._is_should`: the node is an `OrOperation`, or an
`UnknownOperation` while the default operator is SHOULD. -/
def is_should (b : Builder) (operation : LNode) : Bool :=
  match operation with
  | .orOp _ => true
  | .unknownOp _ => b.default_operator == "should"
  | _ => false

/-- The condition checked per child in
`ElasticsearchQueryBuilder._yield_nested_children`. -/
def mixCheck (b : Builder) (parent child : LNode) : Bool :=
  (is_should b parent && is_must b child) || (is_must b parent && is_should b child)

/-- Exception propagation: run `f` on the value unless an exception is already
being propagated. -/
def ebind {α β : Type} (x : Except ESError α) (f : α → Except ESError β) :
    Except ESError β :=
  match x with
  | .error e => .error e
  | .ok v => f v

@[simp] theorem ebind_error {α β : Type} (e : ESError) (f : α → Except ESError β) :
    ebind (.error e) f = .error e := rfl

@[simp] theorem ebind_ok {α β : Type} (v : α) (f : α → Except ESError β) :
    ebind (.ok v) f = f v := rfl

/-- Python attribute assignment on an item (`item.boost = ...` etc.): update the
attribute record; on `None` it raises `AttributeError`. -/
def mapAttrs (f : Attrs → Attrs) : EItem → Except ESError EItem
  | .eword q a => .ok (.eword q (f a))
  | .ephrase p a => .ok (.ephrase p (f a))
  | .erange g1 g2 l1 l2 a => .ok (.erange g1 g2 l1 l2 (f a))
  | .emust its a => .ok (.emust its (f a))
  | .eshould its a => .ok (.eshould its (f a))
  | .emustNot its a => .ok (.emustNot its (f a))
  | .enested p it a => .ok (.enested p it (f a))
  | .enull => .error .attributeError

-- `ElasticsearchQueryBuilder._set_search_field_in_all_children`: on an
-- `AbstractEItem` (a leaf) insert the field name at position 0 of its `fields`;
-- otherwise recurse into the item's sub-items (spec section 4.2: "recursive
-- descent through composite items, stopping at leaves").  On Python `None` the
-- attribute access raises.
mutual
def set_search_field_in_all_children (field_name : String) :
    EItem → Except ESError EItem
  | .eword q a => .ok (.eword q { a with fields := field_name :: a.fields })
  | .ephrase p a => .ok (.ephrase p { a with fields := field_name :: a.fields })
  | .erange g1 g2 l1 l2 a =>
      .ok (.erange g1 g2 l1 l2 { a with fields := field_name :: a.fields })
  | .emust its a =>
      ebind (set_sf_list field_name its) (fun its2 => .ok (.emust its2 a))
  | .eshould its a =>
      ebind (set_sf_list field_name its) (fun its2 => .ok (.eshould its2 a))
  | .emustNot its a =>
      ebind (set_sf_list field_name its) (fun its2 => .ok (.emustNot its2 a))
  | .enested p it a =>
      ebind (set_search_field_in_all_children field_name it)
        (fun it2 => .ok (.enested p it2 a))
  | .enull => .error .attributeError

def set_sf_list (field_name : String) : List EItem → Except ESError (List EItem)
  | [] => .ok []
  | it :: rest =>
      ebind (set_search_field_in_all_children field_name it) (fun it2 =>
        ebind (set_sf_list field_name rest) (fun rest2 => .ok (it2 :: rest2)))
end

-- `ElasticsearchQueryBuilder._is_nested`: some child of the node is a
-- `SearchField`, or is recursively nested.
mutual
def is_nested : LNode → Bool
  | .word _ => false
  | .phrase _ => false
  | .range _ _ _ _ => false
  | .andOp cs => any_nested cs
  | .orOp cs => any_nested cs
  | .unknownOp cs => any_nested cs
  | .lnot cs => any_nested cs
  | .prohibit cs => any_nested cs
  | .plus cs => any_nested cs
  | .boost _ cs => any_nested cs
  | .fuzzy _ cs => any_nested cs
  | .proximity _ cs => any_nested cs
  | .group cs => any_nested cs
  | .fieldGroup cs => any_nested cs
  | .searchField _ cs => any_nested cs

def any_nested : List LNode → Bool
  | [] => false
  | c :: rest =>
      (match c with
       | .searchField _ _ => true
       | _ => is_nested c) || any_nested rest
end

/-- The loop of `_binary_operation`: consume the (already simplified) children
one by one, raising `OrAndAndOnSameLevel` when `_yield_nested_children` detects
an AND-like / OR-like mix between the parent and the child, visiting the child
otherwise.  The visit callback is passed with a membership proof so that the
recursion is visibly decreasing. -/
def runChecked (b : Builder) (p : LNode) :
    (l : List LNode) → ((c : LNode) → c ∈ l → Except ESError EItem) →
    Except ESError (List EItem)
  | [], _ => .ok []
  | c :: rest, f =>
    if mixCheck b p c then .error (.orAndAndOnSameLevel c)
    else
      ebind (f c (List.mem_cons_self c rest)) (fun it =>
        ebind (runChecked b p rest (fun x hx => f x (List.mem_cons_of_mem c hx)))
          (fun its => .ok (it :: its)))

/-- The loop of `visit_not`: visit each (already simplified) child; no
ambiguity check is performed there. -/
def runList :
    (l : List LNode) → ((c : LNode) → c ∈ l → Except ESError EItem) →
    Except ESError (List EItem)
  | [], _ => .ok []
  | c :: rest, f =>
    ebind (f c (List.mem_cons_self c rest)) (fun it =>
      ebind (runList rest (fun x hx => f x (List.mem_cons_of_mem c hx)))
        (fun its => .ok (it :: its)))

/-- `ElasticsearchQueryBuilder.visit`: one case per node kind, exactly as the
`visit_*` methods of the source.  `And`/`Or`/`Plus` and resolved `Unknown` all
go through `_binary_operation` (simplify, ambiguity check, compose);
`Not`/`Prohibit` simplify and compose without the check; `Boost`/`Fuzzy`/
`Proximity` visit their single term and assign the attribute; `Group`/
`FieldGroup` are transparent; `SearchField` applies field scoping, wrapping in
`ENested` when a `SearchField` occurs below.  Item construction stands for
`es_item_factory.build`, which only allocates.  The `parents` ancestor chain
the source threads through the recursion is never branched on (it only feeds
the recursive calls), so it is not modelled. -/
def visit (b : Builder) (n : LNode) : Except ESError EItem :=
  match n with
  | .word v => .ok (.eword v { defaultAttrs with default_field := b.default_field })
  | .phrase v => .ok (.ephrase v { defaultAttrs with default_field := b.default_field })
  | .range low high il ih =>
      .ok (.erange (if il then some low else none) (if il then none else some low)
                   (if ih then some high else none) (if ih then none else some high)
                   defaultAttrs)
  | .andOp cs =>
      ebind (runChecked b (.andOp cs) (simplify_if_same .kAnd cs) (fun c hc => visit b c))
        (fun its => .ok (.emust its defaultAttrs))
  | .orOp cs =>
      ebind (runChecked b (.orOp cs) (simplify_if_same .kOr cs) (fun c hc => visit b c))
        (fun its => .ok (.eshould its defaultAttrs))
  | .unknownOp cs =>
      if b.default_operator = "should" then
        ebind (runChecked b (.unknownOp cs) (simplify_if_same .kUnknown cs)
                (fun c hc => visit b c))
          (fun its => .ok (.eshould its defaultAttrs))
      else if b.default_operator = "must" then
        ebind (runChecked b (.unknownOp cs) (simplify_if_same .kUnknown cs)
                (fun c hc => visit b c))
          (fun its => .ok (.emust its defaultAttrs))
      else
        .ok .enull
  | .lnot cs =>
      ebind (runList (simplify_if_same .kNot cs) (fun c hc => visit b c))
        (fun its => .ok (.emustNot its defaultAttrs))
  | .prohibit cs =>
      ebind (runList (simplify_if_same .kProhibit cs) (fun c hc => visit b c))
        (fun its => .ok (.emustNot its defaultAttrs))
  | .plus cs =>
      ebind (runChecked b (.plus cs) (simplify_if_same .kPlus cs) (fun c hc => visit b c))
        (fun its => .ok (.emust its defaultAttrs))
  | .boost force cs =>
      match cs with
      | [] => .error .indexError
      | c :: _ =>
        ebind (visit b c) (fun it => mapAttrs (fun a => { a with boost := some force }) it)
  | .fuzzy degree cs =>
      match cs with
      | [] => .error .indexError
      | c :: _ =>
        ebind (visit b c) (fun it => mapAttrs (fun a => { a with fuzziness := some degree }) it)
  | .proximity degree cs =>
      match cs with
      | [] => .error .indexError
      | c :: _ =>
        ebind (visit b c) (fun it => mapAttrs (fun a => { a with slop := some degree }) it)
  | .group cs =>
      match cs with
      | [] => .error .indexError
      | c :: _ => visit b c
  | .fieldGroup cs =>
      match cs with
      | [] => .error .indexError
      | c :: _ => visit b c
  | .searchField name cs =>
      match cs with
      | [] => .error .indexError
      | c :: _ =>
        ebind (visit b c) (fun enode =>
          if is_nested (.searchField name cs) then
            ebind (set_search_field_in_all_children name enode)
              (fun inner => .ok (.enested name inner defaultAttrs))
          else
            set_search_field_in_all_children name enode)
termination_by n.nsize
decreasing_by
  all_goals
    simp only [LNode.nsize, nsizeList]
  all_goals
    first
    | omega
    | (have h1 := nsize_mem_simplify hc
       omega)

/-- `_binary_operation`'s loop instantiated with the recursive visit. -/
def visitChecked (b : Builder) (p : LNode) (l : List LNode) :
    Except ESError (List EItem) :=
  runChecked b p l (fun c _ => visit b c)

/-- `visit_not`'s loop instantiated with the recursive visit. -/
def visitList (b : Builder) (l : List LNode) : Except ESError (List EItem) :=
  runList l (fun c _ => visit b c)

theorem visitChecked_nil (b : Builder) (p : LNode) : visitChecked b p [] = .ok [] := rfl

theorem visitChecked_cons (b : Builder) (p c : LNode) (rest : List LNode) :
    visitChecked b p (c :: rest) =
      if mixCheck b p c then .error (.orAndAndOnSameLevel c)
      else ebind (visit b c) (fun it =>
        ebind (visitChecked b p rest) (fun its => .ok (it :: its))) := rfl

theorem visitList_nil (b : Builder) : visitList b [] = .ok [] := rfl

theorem visitList_cons (b : Builder) (c : LNode) (rest : List LNode) :
    visitList b (c :: rest) =
      ebind (visit b c) (fun it =>
        ebind (visitList b rest) (fun its => .ok (it :: its))) := rfl

-- One rewriting equation per `visit_*` method, phrased with the non-dependent
-- loops above.
theorem visit_word (b : Builder) (v : String) :
    visit b (.word v) =
      .ok (.eword v { defaultAttrs with default_field := b.default_field }) := by
  rw [visit]

theorem visit_phrase (b : Builder) (v : String) :
    visit b (.phrase v) =
      .ok (.ephrase v { defaultAttrs with default_field := b.default_field }) := by
  rw [visit]

theorem visit_range (b : Builder) (low high : String) (il ih : Bool) :
    visit b (.range low high il ih) =
      .ok (.erange (if il then some low else none) (if il then none else some low)
                   (if ih then some high else none) (if ih then none else some high)
                   defaultAttrs) := by
  rw [visit]

theorem visit_andOp (b : Builder) (cs : List LNode) :
    visit b (.andOp cs) =
      ebind (visitChecked b (.andOp cs) (simplify_if_same .kAnd cs))
        (fun its => .ok (.emust its defaultAttrs)) := by
  rw [visit]; rfl

theorem visit_orOp (b : Builder) (cs : List LNode) :
    visit b (.orOp cs) =
      ebind (visitChecked b (.orOp cs) (simplify_if_same .kOr cs))
        (fun its => .ok (.eshould its defaultAttrs)) := by
  rw [visit]; rfl

theorem visit_unknownOp (b : Builder) (cs : List LNode) :
    visit b (.unknownOp cs) =
      if b.default_operator = "should" then
        ebind (visitChecked b (.unknownOp cs) (simplify_if_same .kUnknown cs))
          (fun its => .ok (.eshould its defaultAttrs))
      else if b.default_operator = "must" then
        ebind (visitChecked b (.unknownOp cs) (simplify_if_same .kUnknown cs))
          (fun its => .ok (.emust its defaultAttrs))
      else
        .ok .enull := by
  rw [visit]; rfl

theorem visit_lnot (b : Builder) (cs : List LNode) :
    visit b (.lnot cs) =
      ebind (visitList b (simplify_if_same .kNot cs))
        (fun its => .ok (.emustNot its defaultAttrs)) := by
  rw [visit]; rfl

theorem visit_prohibit (b : Builder) (cs : List LNode) :
    visit b (.prohibit cs) =
      ebind (visitList b (simplify_if_same .kProhibit cs))
        (fun its => .ok (.emustNot its defaultAttrs)) := by
  rw [visit]; rfl

theorem visit_plus (b : Builder) (cs : List LNode) :
    visit b (.plus cs) =
      ebind (visitChecked b (.plus cs) (simplify_if_same .kPlus cs))
        (fun its => .ok (.emust its defaultAttrs)) := by
  rw [visit]; rfl

theorem visit_boost (b : Builder) (force : Rat) (c : LNode) (rest : List LNode) :
    visit b (.boost force (c :: rest)) =
      ebind (visit b c) (fun it => mapAttrs (fun a => { a with boost := some force }) it) := by
  rw [visit]

theorem visit_fuzzy (b : Builder) (degree : Rat) (c : LNode) (rest : List LNode) :
    visit b (.fuzzy degree (c :: rest)) =
      ebind (visit b c) (fun it => mapAttrs (fun a => { a with fuzziness := some degree }) it) := by
  rw [visit]

theorem visit_proximity (b : Builder) (degree : Rat) (c : LNode) (rest : List LNode) :
    visit b (.proximity degree (c :: rest)) =
      ebind (visit b c) (fun it => mapAttrs (fun a => { a with slop := some degree }) it) := by
  rw [visit]

theorem visit_group (b : Builder) (c : LNode) (rest : List LNode) :
    visit b (.group (c :: rest)) = visit b c := by
  rw [visit]

theorem visit_fieldGroup (b : Builder) (c : LNode) (rest : List LNode) :
    visit b (.fieldGroup (c :: rest)) = visit b c := by
  rw [visit]

theorem visit_searchField (b : Builder) (name : String) (c : LNode) (rest : List LNode) :
    visit b (.searchField name (c :: rest)) =
      ebind (visit b c) (fun enode =>
        if is_nested (.searchField name (c :: rest)) then
          ebind (set_search_field_in_all_children name enode)
            (fun inner => .ok (.enested name inner defaultAttrs))
        else
          set_search_field_in_all_children name enode) := by
  rw [visit]

-- Facts about `simplify_if_same`.

theorem simplify_nil (k : LKind) : simplify_if_same k [] = [] := by
  rw [simplify_if_same]

theorem simplify_cons_ne {k : LKind} {c : LNode} (h : c.kind ≠ k) (rest : List LNode) :
    simplify_if_same k (c :: rest) = c :: simplify_if_same k rest := by
  rw [simplify_if_same, if_neg h]

theorem simplify_cons_eq {k : LKind} {c : LNode} (h : c.kind = k) (rest : List LNode) :
    simplify_if_same k (c :: rest) =
      simplify_if_same k c.children ++ simplify_if_same k rest := by
  rw [simplify_if_same, if_pos h]

theorem mem_simplify_kind_ne {k : LKind} :
    ∀ {l : List LNode} {x : LNode}, x ∈ simplify_if_same k l → x.kind ≠ k := by
  intro l
  induction l using simplify_if_same.induct k with
  | case1 =>
    intro x hx
    rw [simplify_if_same] at hx
    cases hx
  | case2 c rest hk ih1 ih2 =>
    intro x hx
    rw [simplify_if_same] at hx
    simp only [hk, if_true, List.mem_append] at hx
    rcases hx with h | h
    · exact ih1 h
    · exact ih2 h
  | case3 c rest hk ih =>
    intro x hx
    rw [simplify_if_same] at hx
    simp only [hk, if_false, List.mem_cons] at hx
    rcases hx with h | h
    · subst h; exact hk
    · exact ih h

theorem simplify_eq_self {k : LKind} {l : List LNode}
    (h : ∀ c ∈ l, c.kind ≠ k) : simplify_if_same k l = l := by
  induction l with
  | nil => rw [simplify_if_same]
  | cons c rest ih =>
    rw [simplify_if_same]
    have hc : c.kind ≠ k := h c (List.mem_cons_self c rest)
    simp only [hc, if_false]
    rw [ih (fun x hx => h x (List.mem_cons_of_mem c hx))]

theorem mem_simplify_of_mem {k : LKind} :
    ∀ {l : List LNode} {c : LNode}, c ∈ l → c.kind ≠ k → c ∈ simplify_if_same k l := by
  intro l
  induction l using simplify_if_same.induct k with
  | case1 =>
    intro c hc
    cases hc
  | case2 x rest hk ih1 ih2 =>
    intro c hc hne
    rw [simplify_if_same]
    simp only [hk, if_true, List.mem_append]
    rcases List.mem_cons.mp hc with h | h
    · subst h; exact absurd hk hne
    · exact Or.inr (ih2 h hne)
  | case3 x rest hk ih =>
    intro c hc hne
    rw [simplify_if_same]
    simp only [hk, if_false, List.mem_cons]
    rcases List.mem_cons.mp hc with h | h
    · exact Or.inl h
    · exact Or.inr (ih h hne)

-- Well-formed Lucene trees: nodes that access `children[0]` (or an equivalent
-- single-payload attribute: `expr`, `term`) carry exactly one child, as the
-- luqum AST constructors guarantee.
mutual
def WF : LNode → Bool
  | .word _ => true
  | .phrase _ => true
  | .range _ _ _ _ => true
  | .andOp cs => WFlist cs
  | .orOp cs => WFlist cs
  | .unknownOp cs => WFlist cs
  | .lnot cs => WFlist cs
  | .prohibit cs => WFlist cs
  | .plus cs => WFlist cs
  | .boost _ cs => cs.length == 1 && WFlist cs
  | .fuzzy _ cs => cs.length == 1 && WFlist cs
  | .proximity _ cs => cs.length == 1 && WFlist cs
  | .group cs => cs.length == 1 && WFlist cs
  | .fieldGroup cs => cs.length == 1 && WFlist cs
  | .searchField _ cs => cs.length == 1 && WFlist cs

def WFlist : List LNode → Bool
  | [] => true
  | c :: rest => WF c && WFlist rest
end

theorem WFlist_mem : ∀ {l : List LNode}, WFlist l = true → ∀ {c : LNode}, c ∈ l → WF c = true := by
  intro l
  induction l with
  | nil => intro _ c hc; cases hc
  | cons x rest ih =>
    intro h c hc
    rw [WFlist] at h
    rcases Bool.and_eq_true_iff.mp h with ⟨h1, h2⟩
    rcases List.mem_cons.mp hc with h3 | h3
    · subst h3; exact h1
    · exact ih h2 h3

theorem WF_children {n : LNode} (h : WF n = true) : WFlist n.children = true := by
  cases n <;>
    first
    | (rw [WF] at h; simp only [LNode.children]; exact h)
    | (rw [WF] at h; simp only [LNode.children]
       exact (Bool.and_eq_true_iff.mp h).2)

theorem WF_simplify {k : LKind} :
    ∀ {l : List LNode}, WFlist l = true → ∀ {x : LNode}, x ∈ simplify_if_same k l → WF x = true := by
  intro l
  induction l using simplify_if_same.induct k with
  | case1 =>
    intro _ x hx
    rw [simplify_if_same] at hx
    cases hx
  | case2 c rest hk ih1 ih2 =>
    intro h x hx
    rw [WFlist] at h
    rcases Bool.and_eq_true_iff.mp h with ⟨h1, h2⟩
    rw [simplify_if_same] at hx
    simp only [hk, if_true, List.mem_append] at hx
    rcases hx with hx | hx
    · exact ih1 (WF_children h1) hx
    · exact ih2 h2 hx
  | case3 c rest hk ih =>
    intro h x hx
    rw [WFlist] at h
    rcases Bool.and_eq_true_iff.mp h with ⟨h1, h2⟩
    rw [simplify_if_same] at hx
    simp only [hk, if_false, List.mem_cons] at hx
    rcases hx with hx | hx
    · subst hx; exact h1
    · exact ih h2 hx

-- An item tree that contains no Python `None` anywhere.
mutual
def nullFree : EItem → Bool
  | .eword _ _ => true
  | .ephrase _ _ => true
  | .erange _ _ _ _ _ => true
  | .emust its _ => nullFreeList its
  | .eshould its _ => nullFreeList its
  | .emustNot its _ => nullFreeList its
  | .enested _ it _ => nullFree it
  | .enull => false

def nullFreeList : List EItem → Bool
  | [] => true
  | it :: rest => nullFree it && nullFreeList rest
end

-- The `fields` sequences of the leaf items of an item tree, in left-to-right
-- order.
mutual
def leafFieldsList : EItem → List (List String)
  | .eword _ a => [a.fields]
  | .ephrase _ a => [a.fields]
  | .erange _ _ _ _ a => [a.fields]
  | .emust its _ => leafFieldsAll its
  | .eshould its _ => leafFieldsAll its
  | .emustNot its _ => leafFieldsAll its
  | .enested _ it _ => leafFieldsList it
  | .enull => []

def leafFieldsAll : List EItem → List (List String)
  | [] => []
  | it :: rest => leafFieldsList it ++ leafFieldsAll rest
end

theorem mapAttrs_good {f : Attrs → Attrs} {it : EItem} (h : nullFree it = true) :
    ∃ it2, mapAttrs f it = .ok it2 ∧ nullFree it2 = true := by
  cases it with
  | enull => rw [nullFree] at h; cases h
  | eword q a => exact ⟨_, rfl, rfl⟩
  | ephrase p a => exact ⟨_, rfl, rfl⟩
  | erange g1 g2 l1 l2 a => exact ⟨_, rfl, rfl⟩
  | emust its a => exact ⟨_, rfl, h⟩
  | eshould its a => exact ⟨_, rfl, h⟩
  | emustNot its a => exact ⟨_, rfl, h⟩
  | enested p it a => exact ⟨_, rfl, h⟩

-- On a `None`-free item, `_set_search_field_in_all_children` succeeds,
-- stays `None`-free, and pushes the field name onto the front of every leaf's
-- `fields` sequence.
mutual
theorem set_sf_good (s : String) : (it : EItem) → nullFree it = true →
    ∃ it2, set_search_field_in_all_children s it = .ok it2 ∧ nullFree it2 = true ∧
      leafFieldsList it2 = (leafFieldsList it).map (fun fs => s :: fs)
  | .eword q a, _ => ⟨_, rfl, rfl, rfl⟩
  | .ephrase p a, _ => ⟨_, rfl, rfl, rfl⟩
  | .erange g1 g2 l1 l2 a, _ => ⟨_, rfl, rfl, rfl⟩
  | .emust its a, h => by
      obtain ⟨its2, h1, h2, h3⟩ := set_sf_list_good s its (by rw [nullFree] at h; exact h)
      refine ⟨.emust its2 a, ?_, ?_, ?_⟩
      · rw [set_search_field_in_all_children, h1]; rfl
      · rw [nullFree]; exact h2
      · rw [leafFieldsList, leafFieldsList]; exact h3
  | .eshould its a, h => by
      obtain ⟨its2, h1, h2, h3⟩ := set_sf_list_good s its (by rw [nullFree] at h; exact h)
      refine ⟨.eshould its2 a, ?_, ?_, ?_⟩
      · rw [set_search_field_in_all_children, h1]; rfl
      · rw [nullFree]; exact h2
      · rw [leafFieldsList, leafFieldsList]; exact h3
  | .emustNot its a, h => by
      obtain ⟨its2, h1, h2, h3⟩ := set_sf_list_good s its (by rw [nullFree] at h; exact h)
      refine ⟨.emustNot its2 a, ?_, ?_, ?_⟩
      · rw [set_search_field_in_all_children, h1]; rfl
      · rw [nullFree]; exact h2
      · rw [leafFieldsList, leafFieldsList]; exact h3
  | .enested p it a, h => by
      obtain ⟨it2, h1, h2, h3⟩ := set_sf_good s it (by rw [nullFree] at h; exact h)
      refine ⟨.enested p it2 a, ?_, ?_, ?_⟩
      · rw [set_search_field_in_all_children, h1]; rfl
      · rw [nullFree]; exact h2
      · rw [leafFieldsList, leafFieldsList]; exact h3
  | .enull, h => by rw [nullFree] at h; cases h

theorem set_sf_list_good (s : String) : (l : List EItem) → nullFreeList l = true →
    ∃ l2, set_sf_list s l = .ok l2 ∧ nullFreeList l2 = true ∧
      leafFieldsAll l2 = (leafFieldsAll l).map (fun fs => s :: fs)
  | [], _ => ⟨[], rfl, rfl, rfl⟩
  | it :: rest, h => by
      rw [nullFreeList] at h
      rcases Bool.and_eq_true_iff.mp h with ⟨h1, h2⟩
      obtain ⟨it2, g1, g2, g3⟩ := set_sf_good s it h1
      obtain ⟨rest2, f1, f2, f3⟩ := set_sf_list_good s rest h2
      refine ⟨it2 :: rest2, ?_, ?_, ?_⟩
      · rw [set_sf_list, g1, ebind_ok, f1, ebind_ok]
      · rw [nullFreeList, g2, f2]; rfl
      · rw [leafFieldsAll, leafFieldsAll, List.map_append, g3, f3]
end

/-- A recognized `default_operator` (the two values the constructor documents). -/
def validOp (b : Builder) : Prop :=
  b.default_operator = "should" ∨ b.default_operator = "must"

/-- A compilation outcome that is either the ambiguity error or a `None`-free
item. -/
def GoodR (r : Except ESError EItem) : Prop :=
  (∃ x, r = .error (.orAndAndOnSameLevel x)) ∨ (∃ it, r = .ok it ∧ nullFree it = true)

def GoodL (r : Except ESError (List EItem)) : Prop :=
  (∃ x, r = .error (.orAndAndOnSameLevel x)) ∨
    (∃ its, r = .ok its ∧ nullFreeList its = true)

theorem visitChecked_good {b : Builder} {p : LNode} :
    ∀ {l : List LNode}, (∀ c ∈ l, GoodR (visit b c)) → GoodL (visitChecked b p l) := by
  intro l
  induction l with
  | nil =>
    intro _
    exact Or.inr ⟨[], visitChecked_nil b p, rfl⟩
  | cons c rest ih =>
    intro h
    rw [visitChecked_cons]
    by_cases hm : mixCheck b p c = true
    · simp only [hm, if_true]
      exact Or.inl ⟨c, rfl⟩
    · simp only [hm, if_false]
      rcases h c (List.mem_cons_self c rest) with ⟨x, hx⟩ | ⟨it, hit, hnf⟩
      · rw [hx, ebind_error]
        exact Or.inl ⟨x, rfl⟩
      · rw [hit, ebind_ok]
        rcases ih (fun x hx => h x (List.mem_cons_of_mem c hx)) with ⟨x, hx⟩ | ⟨its, hits, hnfl⟩
        · rw [hx, ebind_error]
          exact Or.inl ⟨x, rfl⟩
        · rw [hits, ebind_ok]
          refine Or.inr ⟨it :: its, rfl, ?_⟩
          rw [nullFreeList, hnf, hnfl]; rfl

theorem visitList_good {b : Builder} :
    ∀ {l : List LNode}, (∀ c ∈ l, GoodR (visit b c)) → GoodL (visitList b l) := by
  intro l
  induction l with
  | nil =>
    intro _
    exact Or.inr ⟨[], visitList_nil b, rfl⟩
  | cons c rest ih =>
    intro h
    rw [visitList_cons]
    rcases h c (List.mem_cons_self c rest) with ⟨x, hx⟩ | ⟨it, hit, hnf⟩
    · rw [hx, ebind_error]
      exact Or.inl ⟨x, rfl⟩
    · rw [hit, ebind_ok]
      rcases ih (fun x hx => h x (List.mem_cons_of_mem c hx)) with ⟨x, hx⟩ | ⟨its, hits, hnfl⟩
      · rw [hx, ebind_error]
        exact Or.inl ⟨x, rfl⟩
      · rw [hits, ebind_ok]
        refine Or.inr ⟨it :: its, rfl, ?_⟩
        rw [nullFreeList, hnf, hnfl]; rfl

theorem length_one_exists {cs : List LNode} (h : (cs.length == 1) = true) :
    ∃ c, cs = [c] := by
  cases cs with
  | nil => cases h
  | cons c rest =>
    cases rest with
    | nil => exact ⟨c, rfl⟩
    | cons d r2 => simp at h

/-- On a recognized `default_operator` and a well-formed tree, a compilation
either fails with the ambiguity error or returns a `None`-free item: no
`AttributeError`/`IndexError` and no top-level `None` escapes. -/
theorem visit_good {b : Builder} (hb : validOp b) :
    ∀ (N : Nat) (n : LNode), n.nsize ≤ N → WF n = true → GoodR (visit b n) := by
  intro N
  induction N with
  | zero =>
    intro n hn
    have := nsize_pos n
    omega
  | succ N ih =>
    intro n hn hw
    cases n with
    | word v => exact Or.inr ⟨_, visit_word b v, rfl⟩
    | phrase v => exact Or.inr ⟨_, visit_phrase b v, rfl⟩
    | range low high il ih2 => exact Or.inr ⟨_, visit_range b low high il ih2, rfl⟩
    | andOp cs =>
      rw [visit_andOp]
      have hwl : WFlist cs = true := by rw [WF] at hw; exact hw
      have hlist : GoodL (visitChecked b (.andOp cs) (simplify_if_same .kAnd cs)) := by
        refine visitChecked_good (fun c hc => ?_)
        refine ih c ?_ (WF_simplify hwl hc)
        have h1 := nsize_mem_simplify hc
        simp only [LNode.nsize] at hn
        omega
      rcases hlist with ⟨x, hx⟩ | ⟨its, hits, hnfl⟩
      · rw [hx, ebind_error]; exact Or.inl ⟨x, rfl⟩
      · rw [hits, ebind_ok]
        exact Or.inr ⟨_, rfl, by rw [nullFree]; exact hnfl⟩
    | orOp cs =>
      rw [visit_orOp]
      have hwl : WFlist cs = true := by rw [WF] at hw; exact hw
      have hlist : GoodL (visitChecked b (.orOp cs) (simplify_if_same .kOr cs)) := by
        refine visitChecked_good (fun c hc => ?_)
        refine ih c ?_ (WF_simplify hwl hc)
        have h1 := nsize_mem_simplify hc
        simp only [LNode.nsize] at hn
        omega
      rcases hlist with ⟨x, hx⟩ | ⟨its, hits, hnfl⟩
      · rw [hx, ebind_error]; exact Or.inl ⟨x, rfl⟩
      · rw [hits, ebind_ok]
        exact Or.inr ⟨_, rfl, by rw [nullFree]; exact hnfl⟩
    | unknownOp cs =>
      have hwl : WFlist cs = true := by rw [WF] at hw; exact hw
      have hlist : GoodL (visitChecked b (.unknownOp cs) (simplify_if_same .kUnknown cs)) := by
        refine visitChecked_good (fun c hc => ?_)
        refine ih c ?_ (WF_simplify hwl hc)
        have h1 := nsize_mem_simplify hc
        simp only [LNode.nsize] at hn
        omega
      rw [visit_unknownOp]
      rcases hb with hb | hb
      · simp only [hb, if_true]
        rcases hlist with ⟨x, hx⟩ | ⟨its, hits, hnfl⟩
        · rw [hx, ebind_error]; exact Or.inl ⟨x, rfl⟩
        · rw [hits, ebind_ok]
          exact Or.inr ⟨_, rfl, by rw [nullFree]; exact hnfl⟩
      · rw [hb]
        simp only [if_false]
        rcases hlist with ⟨x, hx⟩ | ⟨its, hits, hnfl⟩
        · rw [hx, ebind_error]; exact Or.inl ⟨x, rfl⟩
        · rw [hits, ebind_ok]
          exact Or.inr ⟨_, rfl, by rw [nullFree]; exact hnfl⟩
    | lnot cs =>
      rw [visit_lnot]
      have hwl : WFlist cs = true := by rw [WF] at hw; exact hw
      have hlist : GoodL (visitList b (simplify_if_same .kNot cs)) := by
        refine visitList_good (fun c hc => ?_)
        refine ih c ?_ (WF_simplify hwl hc)
        have h1 := nsize_mem_simplify hc
        simp only [LNode.nsize] at hn
        omega
      rcases hlist with ⟨x, hx⟩ | ⟨its, hits, hnfl⟩
      · rw [hx, ebind_error]; exact Or.inl ⟨x, rfl⟩
      · rw [hits, ebind_ok]
        exact Or.inr ⟨_, rfl, by rw [nullFree]; exact hnfl⟩
    | prohibit cs =>
      rw [visit_prohibit]
      have hwl : WFlist cs = true := by rw [WF] at hw; exact hw
      have hlist : GoodL (visitList b (simplify_if_same .kProhibit cs)) := by
        refine visitList_good (fun c hc => ?_)
        refine ih c ?_ (WF_simplify hwl hc)
        have h1 := nsize_mem_simplify hc
        simp only [LNode.nsize] at hn
        omega
      rcases hlist with ⟨x, hx⟩ | ⟨its, hits, hnfl⟩
      · rw [hx, ebind_error]; exact Or.inl ⟨x, rfl⟩
      · rw [hits, ebind_ok]
        exact Or.inr ⟨_, rfl, by rw [nullFree]; exact hnfl⟩
    | plus cs =>
      rw [visit_plus]
      have hwl : WFlist cs = true := by rw [WF] at hw; exact hw
      have hlist : GoodL (visitChecked b (.plus cs) (simplify_if_same .kPlus cs)) := by
        refine visitChecked_good (fun c hc => ?_)
        refine ih c ?_ (WF_simplify hwl hc)
        have h1 := nsize_mem_simplify hc
        simp only [LNode.nsize] at hn
        omega
      rcases hlist with ⟨x, hx⟩ | ⟨its, hits, hnfl⟩
      · rw [hx, ebind_error]; exact Or.inl ⟨x, rfl⟩
      · rw [hits, ebind_ok]
        exact Or.inr ⟨_, rfl, by rw [nullFree]; exact hnfl⟩
    | boost force cs =>
      rw [WF] at hw
      rcases Bool.and_eq_true_iff.mp hw with ⟨hl, hwl⟩
      obtain ⟨c, rfl⟩ := length_one_exists hl
      rw [visit_boost]
      have hc : GoodR (visit b c) := by
        refine ih c ?_ (WFlist_mem hwl (List.mem_cons_self c []))
        simp only [LNode.nsize, nsizeList] at hn
        omega
      rcases hc with ⟨x, hx⟩ | ⟨it, hit, hnf⟩
      · rw [hx, ebind_error]; exact Or.inl ⟨x, rfl⟩
      · rw [hit, ebind_ok]
        obtain ⟨it2, g1, g2⟩ := mapAttrs_good hnf
        rw [g1]
        exact Or.inr ⟨it2, rfl, g2⟩
    | fuzzy degree cs =>
      rw [WF] at hw
      rcases Bool.and_eq_true_iff.mp hw with ⟨hl, hwl⟩
      obtain ⟨c, rfl⟩ := length_one_exists hl
      rw [visit_fuzzy]
      have hc : GoodR (visit b c) := by
        refine ih c ?_ (WFlist_mem hwl (List.mem_cons_self c []))
        simp only [LNode.nsize, nsizeList] at hn
        omega
      rcases hc with ⟨x, hx⟩ | ⟨it, hit, hnf⟩
      · rw [hx, ebind_error]; exact Or.inl ⟨x, rfl⟩
      · rw [hit, ebind_ok]
        obtain ⟨it2, g1, g2⟩ := mapAttrs_good hnf
        rw [g1]
        exact Or.inr ⟨it2, rfl, g2⟩
    | proximity degree cs =>
      rw [WF] at hw
      rcases Bool.and_eq_true_iff.mp hw with ⟨hl, hwl⟩
      obtain ⟨c, rfl⟩ := length_one_exists hl
      rw [visit_proximity]
      have hc : GoodR (visit b c) := by
        refine ih c ?_ (WFlist_mem hwl (List.mem_cons_self c []))
        simp only [LNode.nsize, nsizeList] at hn
        omega
      rcases hc with ⟨x, hx⟩ | ⟨it, hit, hnf⟩
      · rw [hx, ebind_error]; exact Or.inl ⟨x, rfl⟩
      · rw [hit, ebind_ok]
        obtain ⟨it2, g1, g2⟩ := mapAttrs_good hnf
        rw [g1]
        exact Or.inr ⟨it2, rfl, g2⟩
    | group cs =>
      rw [WF] at hw
      rcases Bool.and_eq_true_iff.mp hw with ⟨hl, hwl⟩
      obtain ⟨c, rfl⟩ := length_one_exists hl
      rw [visit_group]
      refine ih c ?_ (WFlist_mem hwl (List.mem_cons_self c []))
      simp only [LNode.nsize, nsizeList] at hn
      omega
    | fieldGroup cs =>
      rw [WF] at hw
      rcases Bool.and_eq_true_iff.mp hw with ⟨hl, hwl⟩
      obtain ⟨c, rfl⟩ := length_one_exists hl
      rw [visit_fieldGroup]
      refine ih c ?_ (WFlist_mem hwl (List.mem_cons_self c []))
      simp only [LNode.nsize, nsizeList] at hn
      omega
    | searchField name cs =>
      rw [WF] at hw
      rcases Bool.and_eq_true_iff.mp hw with ⟨hl, hwl⟩
      obtain ⟨c, rfl⟩ := length_one_exists hl
      rw [visit_searchField]
      have hc : GoodR (visit b c) := by
        refine ih c ?_ (WFlist_mem hwl (List.mem_cons_self c []))
        simp only [LNode.nsize, nsizeList] at hn
        omega
      rcases hc with ⟨x, hx⟩ | ⟨it, hit, hnf⟩
      · rw [hx, ebind_error]; exact Or.inl ⟨x, rfl⟩
      · rw [hit, ebind_ok]
        obtain ⟨it2, g1, g2, _⟩ := set_sf_good name it hnf
        by_cases hnest : is_nested (.searchField name [c]) = true
        · simp only [hnest, if_true]
          rw [g1, ebind_ok]
          exact Or.inr ⟨_, rfl, by rw [nullFree]; exact g2⟩
        · simp only [hnest, if_false]
          rw [g1]
          exact Or.inr ⟨it2, rfl, g2⟩

/-- The attribute record of an item; `none` on Python `None`. -/
def attrsOf : EItem → Option Attrs
  | .eword _ a => some a
  | .ephrase _ a => some a
  | .erange _ _ _ _ a => some a
  | .emust _ a => some a
  | .eshould _ a => some a
  | .emustNot _ a => some a
  | .enested _ _ a => some a
  | .enull => none

/-- The item with its own attribute record reset: what remains of an item
besides its directly attached attributes (payload and sub-items). -/
def stripAttrs : EItem → EItem
  | .eword q _ => .eword q defaultAttrs
  | .ephrase p _ => .ephrase p defaultAttrs
  | .erange g1 g2 l1 l2 _ => .erange g1 g2 l1 l2 defaultAttrs
  | .emust its _ => .emust its defaultAttrs
  | .eshould its _ => .eshould its defaultAttrs
  | .emustNot its _ => .emustNot its defaultAttrs
  | .enested p it _ => .enested p it defaultAttrs
  | .enull => .enull

/-- Modelled from the spec (section 6): the effective field reference of a leaf
is its `fields` sequence joined into a dotted path, falling back to the
default field when no `SearchField` scoped it. -/
def fieldPath (a : Attrs) : String :=
  if a.fields.isEmpty then a.default_field else String.intercalate "." a.fields

-- Direct same-kind nesting detection on item trees (the invariant claimed in
-- spec section 3): a `Must` with a direct `Must` child, or a `Should` with a
-- direct `Should` child, somewhere in the tree.
def listHasMust : List EItem → Bool
  | [] => false
  | .emust _ _ :: _ => true
  | _ :: rest => listHasMust rest

def listHasShould : List EItem → Bool
  | [] => false
  | .eshould _ _ :: _ => true
  | _ :: rest => listHasShould rest

mutual
def hasSameKindNesting : EItem → Bool
  | .eword _ _ => false
  | .ephrase _ _ => false
  | .erange _ _ _ _ _ => false
  | .emust its _ => listHasMust its || nestingAny its
  | .eshould its _ => listHasShould its || nestingAny its
  | .emustNot its _ => nestingAny its
  | .enested _ it _ => hasSameKindNesting it
  | .enull => false

def nestingAny : List EItem → Bool
  | [] => false
  | it :: rest => hasSameKindNesting it || nestingAny rest
end

-- The ambiguity check can only fire on And/Or/Unknown children: a mixed pair
-- always has distinct runtime classes, so the same-kind splice never removed
-- the offending child.

theorem mixCheck_and_kind {b : Builder} {cs : List LNode} {c : LNode}
    (hm : mixCheck b (.andOp cs) c = true) : c.kind ≠ .kAnd := by
  cases c <;> simp [mixCheck, is_must, is_should, LNode.kind] at hm ⊢

theorem mixCheck_or_kind {b : Builder} {cs : List LNode} {c : LNode}
    (hm : mixCheck b (.orOp cs) c = true) : c.kind ≠ .kOr := by
  cases c <;> simp [mixCheck, is_must, is_should, LNode.kind] at hm ⊢

theorem mixCheck_unknown_kind {b : Builder} {cs : List LNode} {c : LNode}
    (hm : mixCheck b (.unknownOp cs) c = true) : c.kind ≠ .kUnknown := by
  cases c <;> simp [mixCheck, is_must, is_should, LNode.kind] at hm ⊢
  rcases hm with ⟨h1, h2⟩ | ⟨h1, h2⟩ <;> rw [h1] at h2 <;> exact absurd h2 (by decide)

/-- A negation (or any non-And/Or/Unknown) child never triggers the ambiguity
check, whatever the parent. -/
theorem mixCheck_false_of_kinds {b : Builder} {p c : LNode}
    (h1 : c.kind ≠ .kAnd) (h2 : c.kind ≠ .kOr) (h3 : c.kind ≠ .kUnknown) :
    mixCheck b p c = false := by
  cases c with
  | andOp cs2 => exact absurd rfl h1
  | orOp cs2 => exact absurd rfl h2
  | unknownOp cs2 => exact absurd rfl h3
  | word v => simp [mixCheck, is_must, is_should]
  | phrase v => simp [mixCheck, is_must, is_should]
  | range low high il ih => simp [mixCheck, is_must, is_should]
  | lnot cs2 => simp [mixCheck, is_must, is_should]
  | prohibit cs2 => simp [mixCheck, is_must, is_should]
  | plus cs2 => simp [mixCheck, is_must, is_should]
  | boost f cs2 => simp [mixCheck, is_must, is_should]
  | fuzzy d cs2 => simp [mixCheck, is_must, is_should]
  | proximity d cs2 => simp [mixCheck, is_must, is_should]
  | group cs2 => simp [mixCheck, is_must, is_should]
  | fieldGroup cs2 => simp [mixCheck, is_must, is_should]
  | searchField name cs2 => simp [mixCheck, is_must, is_should]

/-- If some member of the composed child list triggers the ambiguity check and
every member's own compilation is well-behaved, the loop ends in the ambiguity
error. -/
theorem visitChecked_err_of_mix {b : Builder} {p : LNode} :
    ∀ {l : List LNode}, (∀ x ∈ l, GoodR (visit b x)) →
      ∀ {c : LNode}, c ∈ l → mixCheck b p c = true →
      ∃ x, visitChecked b p l = .error (.orAndAndOnSameLevel x) := by
  intro l
  induction l with
  | nil =>
    intro _ c hc
    cases hc
  | cons d rest ih =>
    intro hg c hc hm
    rw [visitChecked_cons]
    by_cases hd : mixCheck b p d = true
    · simp only [hd, if_true]
      exact ⟨d, rfl⟩
    · simp only [hd, if_false]
      have hcr : c ∈ rest := by
        rcases List.mem_cons.mp hc with h | h
        · subst h; exact absurd hm hd
        · exact h
      rcases hg d (List.mem_cons_self d rest) with ⟨x, hx⟩ | ⟨it, hit, _⟩
      · rw [hx, ebind_error]
        exact ⟨x, rfl⟩
      · rw [hit, ebind_ok]
        obtain ⟨x, hx⟩ := ih (fun y hy => hg y (List.mem_cons_of_mem d hy)) hcr hm
        rw [hx, ebind_error]
        exact ⟨x, rfl⟩

/-- If nothing in the child list triggers the ambiguity check and every child
compiles, the loop returns the items. -/
theorem visitChecked_ok_of_all {b : Builder} {p : LNode} :
    ∀ {l : List LNode}, (∀ c ∈ l, mixCheck b p c = false) →
      (∀ c ∈ l, ∃ it, visit b c = .ok it) →
      ∃ its, visitChecked b p l = .ok its := by
  intro l
  induction l with
  | nil =>
    intro _ _
    exact ⟨[], visitChecked_nil b p⟩
  | cons c rest ih =>
    intro hmix hok
    rw [visitChecked_cons]
    have h1 := hmix c (List.mem_cons_self c rest)
    simp only [h1, if_false]
    obtain ⟨it, hit⟩ := hok c (List.mem_cons_self c rest)
    rw [hit, ebind_ok]
    obtain ⟨its, hits⟩ := ih (fun x hx => hmix x (List.mem_cons_of_mem c hx))
      (fun x hx => hok x (List.mem_cons_of_mem c hx))
    rw [hits, ebind_ok]
    exact ⟨it :: its, rfl⟩

/-- The ambiguity check depends on the parent only through `mixCheck`. -/
theorem visitChecked_congr {b : Builder} {p1 p2 : LNode} :
    ∀ {l : List LNode}, (∀ c ∈ l, mixCheck b p1 c = mixCheck b p2 c) →
      visitChecked b p1 l = visitChecked b p2 l := by
  intro l
  induction l with
  | nil => intro _; rw [visitChecked_nil, visitChecked_nil]
  | cons c rest ih =>
    intro h
    rw [visitChecked_cons, visitChecked_cons, h c (List.mem_cons_self c rest),
        ih (fun x hx => h x (List.mem_cons_of_mem c hx))]

/-- A builder with the default configuration (`default_operator='should'`,
`default_field='text'`), used for concrete instances. -/
def bShould : Builder := { default_operator := "should", default_field := "text" }

/-- C2: for an `AndOperation` (resp. `OrOperation`), immediate children of the
same operation kind are spliced into the parent's child list recursively before
composition: `A AND (B AND (C AND D))` compiles to a single 4-ary `Must` whose
children are exactly the compiled forms of A, B, C, D in left-to-right order;
both associations `A AND (B AND C)` and `(A AND B) AND C` compile to one 3-ary
`Must`; the `Or`/`Should` case behaves the same.  A, B, C, D range over
arbitrary compiling subtrees that are not themselves boolean operation nodes. -/
theorem c2_same_kind_splicing (b : Builder) (xa xb xc xd : LNode) (ia ib ic id2 : EItem)
    (ka : xa.kind ≠ .kAnd ∧ xa.kind ≠ .kOr ∧ xa.kind ≠ .kUnknown)
    (kb : xb.kind ≠ .kAnd ∧ xb.kind ≠ .kOr ∧ xb.kind ≠ .kUnknown)
    (kc : xc.kind ≠ .kAnd ∧ xc.kind ≠ .kOr ∧ xc.kind ≠ .kUnknown)
    (kd : xd.kind ≠ .kAnd ∧ xd.kind ≠ .kOr ∧ xd.kind ≠ .kUnknown)
    (hva : visit b xa = .ok ia) (hvb : visit b xb = .ok ib)
    (hvc : visit b xc = .ok ic) (hvd : visit b xd = .ok id2) :
    visit b (.andOp [xa, .andOp [xb, .andOp [xc, xd]]]) =
      .ok (.emust [ia, ib, ic, id2] defaultAttrs) ∧
    visit b (.andOp [xa, .andOp [xb, xc]]) =
      .ok (.emust [ia, ib, ic] defaultAttrs) ∧
    visit b (.andOp [.andOp [xa, xb], xc]) =
      .ok (.emust [ia, ib, ic] defaultAttrs) ∧
    visit b (.orOp [xa, .orOp [xb, .orOp [xc, xd]]]) =
      .ok (.eshould [ia, ib, ic, id2] defaultAttrs) := by
  have ma : ∀ p, mixCheck b p xa = false :=
    fun p => mixCheck_false_of_kinds ka.1 ka.2.1 ka.2.2
  have mb : ∀ p, mixCheck b p xb = false :=
    fun p => mixCheck_false_of_kinds kb.1 kb.2.1 kb.2.2
  have mc : ∀ p, mixCheck b p xc = false :=
    fun p => mixCheck_false_of_kinds kc.1 kc.2.1 kc.2.2
  have md : ∀ p, mixCheck b p xd = false :=
    fun p => mixCheck_false_of_kinds kd.1 kd.2.1 kd.2.2
  have t0 : simplify_if_same .kAnd [xc, xd] = [xc, xd] := by
    rw [simplify_cons_ne kc.1, simplify_cons_ne kd.1, simplify_nil]
  have t1 : simplify_if_same .kAnd [xb, .andOp [xc, xd]] = [xb, xc, xd] := by
    rw [simplify_cons_ne kb.1,
        simplify_cons_eq (show (LNode.andOp [xc, xd]).kind = .kAnd from rfl),
        simplify_nil, List.append_nil]
    simp only [LNode.children]
    rw [t0]
  have t2 : simplify_if_same .kAnd [xa, .andOp [xb, .andOp [xc, xd]]] = [xa, xb, xc, xd] := by
    rw [simplify_cons_ne ka.1,
        simplify_cons_eq (show (LNode.andOp [xb, .andOp [xc, xd]]).kind = .kAnd from rfl),
        simplify_nil, List.append_nil]
    simp only [LNode.children]
    rw [t1]
  have t3 : simplify_if_same .kAnd [xb, xc] = [xb, xc] := by
    rw [simplify_cons_ne kb.1, simplify_cons_ne kc.1, simplify_nil]
  have t4 : simplify_if_same .kAnd [xa, .andOp [xb, xc]] = [xa, xb, xc] := by
    rw [simplify_cons_ne ka.1,
        simplify_cons_eq (show (LNode.andOp [xb, xc]).kind = .kAnd from rfl),
        simplify_nil, List.append_nil]
    simp only [LNode.children]
    rw [t3]
  have t5 : simplify_if_same .kAnd [.andOp [xa, xb], xc] = [xa, xb, xc] := by
    rw [simplify_cons_eq (show (LNode.andOp [xa, xb]).kind = .kAnd from rfl)]
    simp only [LNode.children]
    rw [simplify_cons_ne ka.1, simplify_cons_ne kb.1, simplify_nil,
        simplify_cons_ne kc.1, simplify_nil]
    rfl
  have u0 : simplify_if_same .kOr [xc, xd] = [xc, xd] := by
    rw [simplify_cons_ne kc.2.1, simplify_cons_ne kd.2.1, simplify_nil]
  have u1 : simplify_if_same .kOr [xb, .orOp [xc, xd]] = [xb, xc, xd] := by
    rw [simplify_cons_ne kb.2.1,
        simplify_cons_eq (show (LNode.orOp [xc, xd]).kind = .kOr from rfl),
        simplify_nil, List.append_nil]
    simp only [LNode.children]
    rw [u0]
  have u2 : simplify_if_same .kOr [xa, .orOp [xb, .orOp [xc, xd]]] = [xa, xb, xc, xd] := by
    rw [simplify_cons_ne ka.2.1,
        simplify_cons_eq (show (LNode.orOp [xb, .orOp [xc, xd]]).kind = .kOr from rfl),
        simplify_nil, List.append_nil]
    simp only [LNode.children]
    rw [u1]
  refine ⟨?_, ?_, ?_, ?_⟩
  · rw [visit_andOp, t2]
    simp only [visitChecked_cons, visitChecked_nil, ma, mb, mc, md, Bool.false_eq_true,
               if_false, hva, hvb, hvc, hvd, ebind_ok]
  · rw [visit_andOp, t4]
    simp only [visitChecked_cons, visitChecked_nil, ma, mb, mc, Bool.false_eq_true,
               if_false, hva, hvb, hvc, ebind_ok]
  · rw [visit_andOp, t5]
    simp only [visitChecked_cons, visitChecked_nil, ma, mb, mc, Bool.false_eq_true,
               if_false, hva, hvb, hvc, ebind_ok]
  · rw [visit_orOp, u2]
    simp only [visitChecked_cons, visitChecked_nil, ma, mb, mc, md, Bool.false_eq_true,
               if_false, hva, hvb, hvc, hvd, ebind_ok]

theorem c2_same_kind_splicing_witness :
    visit bShould (.andOp [.word "a", .andOp [.word "b", .andOp [.word "c", .word "d"]]]) =
      .ok (.emust [.eword "a" { defaultAttrs with default_field := bShould.default_field },
                   .eword "b" { defaultAttrs with default_field := bShould.default_field },
                   .eword "c" { defaultAttrs with default_field := bShould.default_field },
                   .eword "d" { defaultAttrs with default_field := bShould.default_field }]
           defaultAttrs) :=
  (c2_same_kind_splicing bShould (.word "a") (.word "b") (.word "c") (.word "d")
    (.eword "a" { defaultAttrs with default_field := bShould.default_field })
    (.eword "b" { defaultAttrs with default_field := bShould.default_field })
    (.eword "c" { defaultAttrs with default_field := bShould.default_field })
    (.eword "d" { defaultAttrs with default_field := bShould.default_field })
    (by decide) (by decide) (by decide) (by decide)
    (visit_word bShould "a") (visit_word bShould "b")
    (visit_word bShould "c") (visit_word bShould "d")).1

/-- C3 (evaluating the code at the claim's input): the code compiles
`NOT NOT A` to a single `MustNot` around the compiled `A`, because `visit_not`
pipes the `Not` node's children through `simplify_if_same`, which splices the
inner `Not`.  The claim (and `simplify_if_same`'s own docstring, which says it
must be used only with should/must operations because `Not(Not(x))` cannot be
simplified) requires `MustNot(MustNot(A'))` instead. -/
theorem c3_not_not_collapsed (b : Builder) (v : String) :
    visit b (.lnot [.lnot [.word v]]) =
      .ok (.emustNot [.eword v { defaultAttrs with default_field := b.default_field }]
           defaultAttrs) := by
  simp [visit_lnot, visit_word, visitList_cons, visitList_nil,
        simplify_if_same, LNode.kind, LNode.children]

/-- C7: a `Range` node compiles to a `Range` item whose low bound key is `gte`
exactly when `include_low` (else `gt`) and whose high bound key is `lte`
exactly when `include_high` (else `lt`) — never both of a pair; concretely
`n:[1 TO 10]` yields gte/lte 1..10 and `n:{1 TO 10}` yields gt/lt 1..10. -/
theorem c7_range_bounds (b : Builder) (low high : String) (il ih : Bool) :
    visit b (.range low high il ih) =
      .ok (.erange (if il then some low else none) (if il then none else some low)
                   (if ih then some high else none) (if ih then none else some high)
                   defaultAttrs) ∧
    visit b (.searchField "n" [.range "1" "10" true true]) =
      .ok (.erange (some "1") none (some "10") none { defaultAttrs with fields := ["n"] }) ∧
    visit b (.searchField "n" [.range "1" "10" false false]) =
      .ok (.erange none (some "1") none (some "10") { defaultAttrs with fields := ["n"] }) := by
  refine ⟨visit_range b low high il ih, ?_, ?_⟩ <;>
    simp [visit_searchField, visit_range, is_nested, any_nested,
          set_search_field_in_all_children, defaultAttrs]

/-- C9: a builder constructed with a `default_operator` that is neither
`'should'` nor `'must'` compiles every `UnknownOperation` node to Python `None`
(`visit_unknown_operation` falls through both branches): no exception is
raised and no item is built. -/
theorem c9_unrecognized_operator (b : Builder) (cs : List LNode)
    (h1 : b.default_operator ≠ "should") (h2 : b.default_operator ≠ "must") :
    visit b (.unknownOp cs) = .ok .enull := by
  rw [visit_unknownOp]
  simp [h1, h2]

theorem c9_unrecognized_operator_witness :
    visit { default_operator := "avg", default_field := "text" } (.unknownOp [.word "a"]) =
      .ok .enull :=
  c9_unrecognized_operator { default_operator := "avg", default_field := "text" }
    [.word "a"] (by decide) (by decide)

/-- C8: a `Boost` node compiles to the item of its single inner child with
`boost` set to the node's force and everything else — the other attributes,
the payload and the sub-items — unchanged; `Fuzzy` and `Proximity` behave the
same for `fuzziness` and `slop`. -/
theorem c8_modifier_attachment (b : Builder) (c : LNode) (it : EItem) (f d p : Rat)
    (hv : visit b c = .ok it) (hn : it ≠ .enull) :
    (∃ it1, visit b (.boost f [c]) = .ok it1 ∧
       attrsOf it1 = (attrsOf it).map (fun a => { a with boost := some f }) ∧
       stripAttrs it1 = stripAttrs it) ∧
    (∃ it2, visit b (.fuzzy d [c]) = .ok it2 ∧
       attrsOf it2 = (attrsOf it).map (fun a => { a with fuzziness := some d }) ∧
       stripAttrs it2 = stripAttrs it) ∧
    (∃ it3, visit b (.proximity p [c]) = .ok it3 ∧
       attrsOf it3 = (attrsOf it).map (fun a => { a with slop := some p }) ∧
       stripAttrs it3 = stripAttrs it) := by
  refine ⟨?_, ?_, ?_⟩
  · rw [visit_boost, hv, ebind_ok]
    cases it <;> first
      | exact absurd rfl hn
      | exact ⟨_, rfl, rfl, rfl⟩
  · rw [visit_fuzzy, hv, ebind_ok]
    cases it <;> first
      | exact absurd rfl hn
      | exact ⟨_, rfl, rfl, rfl⟩
  · rw [visit_proximity, hv, ebind_ok]
    cases it <;> first
      | exact absurd rfl hn
      | exact ⟨_, rfl, rfl, rfl⟩

theorem c8_modifier_attachment_witness :
    ∃ it1, visit bShould (.boost 4 [.phrase "Phoenix"]) = .ok it1 ∧
      attrsOf it1 =
        (attrsOf (.ephrase "Phoenix" { defaultAttrs with default_field := "text" })).map
          (fun a => { a with boost := some 4 }) ∧
      stripAttrs it1 =
        stripAttrs (.ephrase "Phoenix" { defaultAttrs with default_field := "text" }) :=
  (c8_modifier_attachment bShould (.phrase "Phoenix")
    (.ephrase "Phoenix" { defaultAttrs with default_field := "text" }) 4 1 6
    (visit_phrase bShould "Phoenix") (fun h => EItem.noConfusion h)).1

/-- C4: a `SearchField` with a `SearchField` strictly below compiles to a
`Nested` item carrying this node's field name as `nested_path` and wrapping the
compiled child with the field name pushed in front of every inner leaf's
`fields`; with no `SearchField` below, it only pushes the field name, without a
`Nested` wrapper.  Concretely `illustrators:(nationality:UK)` yields
`Nested(nested_path=illustrators)` around a `Term` leaf whose field path is
`illustrators.nationality`. -/
theorem c4_search_field_scoping (b : Builder) (name : String) (c : LNode) (inner : EItem)
    (hv : visit b c = .ok inner) :
    (is_nested (.searchField name [c]) = true →
       visit b (.searchField name [c]) =
         ebind (set_search_field_in_all_children name inner)
           (fun it => .ok (.enested name it defaultAttrs))) ∧
    (is_nested (.searchField name [c]) = false →
       visit b (.searchField name [c]) = set_search_field_in_all_children name inner) ∧
    (∀ (s : String) (it it2 : EItem), nullFree it = true →
       set_search_field_in_all_children s it = .ok it2 →
       leafFieldsList it2 = (leafFieldsList it).map (fun fs => s :: fs)) ∧
    (visit b (.searchField "illustrators"
        [.fieldGroup [.searchField "nationality" [.word "UK"]]]) =
       .ok (.enested "illustrators"
             (.eword "UK" { fields := ["illustrators", "nationality"],
                            default_field := b.default_field }) defaultAttrs) ∧
     fieldPath { fields := ["illustrators", "nationality"],
                 default_field := b.default_field } = "illustrators.nationality") := by
  refine ⟨?_, ?_, ?_, ?_, ?_⟩
  · intro h
    rw [visit_searchField, hv, ebind_ok]
    simp only [h, if_true]
  · intro h
    rw [visit_searchField, hv, ebind_ok]
    simp only [h, Bool.false_eq_true, if_false]
  · intro s it it2 hnf hset
    obtain ⟨it2i, e1, _, e3⟩ := set_sf_good s it hnf
    rw [e1] at hset
    injection hset with h
    rw [← h]
    exact e3
  · simp [visit_searchField, visit_fieldGroup, visit_word, is_nested, any_nested,
          set_search_field_in_all_children, defaultAttrs]
  · simp only [fieldPath, List.isEmpty_cons, Bool.false_eq_true, if_false]
    decide

theorem c4_search_field_scoping_witness :
    visit bShould (.searchField "title" [.word "Phoenix"]) =
      set_search_field_in_all_children "title"
        (.eword "Phoenix" { defaultAttrs with default_field := "text" }) :=
  (c4_search_field_scoping bShould "title" (.word "Phoenix")
    (.eword "Phoenix" { defaultAttrs with default_field := "text" })
    (visit_word bShould "Phoenix")).2.1 rfl

/-- C6 (counterexample): with `default_operator = SHOULD` and children
`[a, (b OR c)]`, compiling the `UnknownOperation` differs from compiling the
`OrOperation` on the same children: the splice in `simplify_if_same` compares
exact node classes, so the inner `OrOperation` is spliced under an
`OrOperation` parent but kept nested under an `UnknownOperation` parent. -/
theorem c6_unknown_vs_or_differ :
    visit bShould (.unknownOp [.word "a", .orOp [.word "b", .word "c"]]) ≠
      visit bShould (.orOp [.word "a", .orOp [.word "b", .word "c"]]) := by
  simp [visit_unknownOp, visit_orOp, visit_word, visitChecked_cons, visitChecked_nil,
        simplify_if_same, LNode.kind, LNode.children, bShould, mixCheck, is_must, is_should,
        defaultAttrs]

/-- C6 (amended): with `default_operator = SHOULD`, compiling
`UnknownOperation(c1..cn)` equals compiling `OrOperation(c1..cn)` (and with
MUST, `AndOperation(c1..cn)`) whenever no child is itself an And/Or/Unknown
operation node — e.g. for `a b` versus `a OR b`; the resolved kind follows the
same ambiguity-check and compose path. -/
theorem c6_default_operator_resolution (b : Builder) (cs : List LNode)
    (h : ∀ c ∈ cs, c.kind ≠ .kAnd ∧ c.kind ≠ .kOr ∧ c.kind ≠ .kUnknown) :
    (b.default_operator = "should" → visit b (.unknownOp cs) = visit b (.orOp cs)) ∧
    (b.default_operator = "must" → visit b (.unknownOp cs) = visit b (.andOp cs)) := by
  have hmix : ∀ p1 p2 : LNode, ∀ c ∈ cs, mixCheck b p1 c = mixCheck b p2 c := by
    intro p1 p2 c hc
    obtain ⟨h1, h2, h3⟩ := h c hc
    rw [mixCheck_false_of_kinds h1 h2 h3, mixCheck_false_of_kinds h1 h2 h3]
  constructor
  · intro hop
    rw [visit_unknownOp, visit_orOp, hop, if_pos rfl,
        simplify_eq_self (fun c hc => (h c hc).2.2),
        simplify_eq_self (fun c hc => (h c hc).2.1),
        visitChecked_congr (hmix (.unknownOp cs) (.orOp cs))]
  · intro hop
    rw [visit_unknownOp, visit_andOp, hop, if_neg (by decide), if_pos rfl,
        simplify_eq_self (fun c hc => (h c hc).2.2),
        simplify_eq_self (fun c hc => (h c hc).1),
        visitChecked_congr (hmix (.unknownOp cs) (.andOp cs))]

theorem c6_default_operator_resolution_witness :
    visit bShould (.unknownOp [.word "a", .word "b"]) =
      visit bShould (.orOp [.word "a", .word "b"]) :=
  (c6_default_operator_resolution bShould [.word "a", .word "b"] (by decide)).1 rfl

/-- C5 (counterexample): a successful compilation can return a `Must` directly
containing a `Must`: a `Plus` node composes a `Must` over its children without
any same-kind splice against them, so `+(a AND b)` yields `Must[Must[a, b]]`. -/
theorem c5_plus_must_in_must :
    visit bShould (.plus [.andOp [.word "a", .word "b"]]) =
      .ok (.emust [.emust [.eword "a" { defaultAttrs with default_field := "text" },
                           .eword "b" { defaultAttrs with default_field := "text" }]
                     defaultAttrs] defaultAttrs) ∧
    hasSameKindNesting
      (.emust [.emust [.eword "a" { defaultAttrs with default_field := "text" },
                       .eword "b" { defaultAttrs with default_field := "text" }]
                 defaultAttrs] defaultAttrs) = true := by
  constructor
  · simp [visit_plus, visit_andOp, visit_word, visitChecked_cons, visitChecked_nil,
          simplify_if_same, LNode.kind, LNode.children, bShould, mixCheck,
          is_must, is_should, defaultAttrs]
  · rfl

/-- C5 (amended): identical-kind nesting never arises from a same-type direct
child of an And/Or/Unknown node: the child list actually composed — the output
of `simplify_if_same` — contains no node of the same class as the parent.
(Identical-kind item nesting can still occur through `Plus`, `Group` wrapping,
or an `UnknownOperation` resolved next to an explicit operation.) -/
theorem c5_no_same_kind_child_composed (k : LKind) (l : List LNode) (x : LNode)
    (hx : x ∈ simplify_if_same k l) : x.kind ≠ k :=
  mem_simplify_kind_ne hx

theorem c5_no_same_kind_child_composed_witness :
    (LNode.word "a").kind ≠ .kAnd :=
  c5_no_same_kind_child_composed .kAnd [.andOp [.word "a"]] (.word "a")
    (by simp [simplify_if_same, LNode.kind, LNode.children])

/-- C1: for an And, Or or Unknown node on a recognized `default_operator` and a
well-formed child list, if any direct child is of the opposite boolean kind —
`mixCheck` is the source's condition, with `UnknownOperation` counting as
Must-kind under MUST and Should-kind under SHOULD, for parent and child
alike — compilation fails with `OrAndAndOnSameLevel` and yields no result;
with the opposite-kind subexpression wrapped in a `Group`, compilation
succeeds (`a OR (b AND c)`). -/
theorem c1_ambiguous_boolean_mix (b : Builder) (cs : List LNode) (c : LNode)
    (hb : validOp b) (hw : WFlist cs = true) (hc : c ∈ cs) :
    (mixCheck b (.andOp cs) c = true →
       ∃ x, visit b (.andOp cs) = .error (.orAndAndOnSameLevel x)) ∧
    (mixCheck b (.orOp cs) c = true →
       ∃ x, visit b (.orOp cs) = .error (.orAndAndOnSameLevel x)) ∧
    (mixCheck b (.unknownOp cs) c = true →
       ∃ x, visit b (.unknownOp cs) = .error (.orAndAndOnSameLevel x)) ∧
    (∀ v1 v2 v3 : String,
       visit b (.orOp [.word v1, .group [.andOp [.word v2, .word v3]]]) =
         .ok (.eshould [.eword v1 { defaultAttrs with default_field := b.default_field },
                        .emust [.eword v2 { defaultAttrs with default_field := b.default_field },
                                .eword v3 { defaultAttrs with default_field := b.default_field }]
                          defaultAttrs] defaultAttrs)) := by
  refine ⟨?_, ?_, ?_, ?_⟩
  · intro hm
    have hgood : ∀ x ∈ simplify_if_same .kAnd cs, GoodR (visit b x) :=
      fun x hx => visit_good hb x.nsize x le_rfl (WF_simplify hw hx)
    obtain ⟨x, hx⟩ := visitChecked_err_of_mix hgood
      (mem_simplify_of_mem hc (mixCheck_and_kind hm)) hm
    exact ⟨x, by rw [visit_andOp, hx, ebind_error]⟩
  · intro hm
    have hgood : ∀ x ∈ simplify_if_same .kOr cs, GoodR (visit b x) :=
      fun x hx => visit_good hb x.nsize x le_rfl (WF_simplify hw hx)
    obtain ⟨x, hx⟩ := visitChecked_err_of_mix hgood
      (mem_simplify_of_mem hc (mixCheck_or_kind hm)) hm
    exact ⟨x, by rw [visit_orOp, hx, ebind_error]⟩
  · intro hm
    have hgood : ∀ x ∈ simplify_if_same .kUnknown cs, GoodR (visit b x) :=
      fun x hx => visit_good hb x.nsize x le_rfl (WF_simplify hw hx)
    obtain ⟨x, hx⟩ := visitChecked_err_of_mix hgood
      (mem_simplify_of_mem hc (mixCheck_unknown_kind hm)) hm
    rcases hb with hop | hop
    · exact ⟨x, by rw [visit_unknownOp, hop, if_pos rfl, hx, ebind_error]⟩
    · exact ⟨x, by rw [visit_unknownOp, hop, if_neg (by decide), if_pos rfl, hx, ebind_error]⟩
  · intro v1 v2 v3
    simp [visit_orOp, visit_andOp, visit_group, visit_word, visitChecked_cons,
          visitChecked_nil, simplify_if_same, LNode.kind, LNode.children, mixCheck,
          is_must, is_should]

theorem c1_ambiguous_boolean_mix_witness :
    ∃ x, visit bShould (.orOp [.word "a", .andOp [.word "b", .word "c"]]) =
      .error (.orAndAndOnSameLevel x) :=
  (c1_ambiguous_boolean_mix bShould [.word "a", .andOp [.word "b", .word "c"]]
    (.andOp [.word "b", .word "c"]) (Or.inl rfl) (by decide)
    (List.mem_cons_of_mem _ (List.mem_cons_self _ _))).2.1 (by decide)

/-- C10 (counterexample): an `AndOperation` that does have a `Not` child
wrapping an `OrOperation` can still fail with the ambiguity error, when
another direct child is of the opposite boolean kind — so compilation does not
succeed for *every* such `AndOperation`. -/
theorem c10_other_child_still_errors :
    visit bShould (.andOp [.orOp [.word "a", .word "b"],
                           .lnot [.orOp [.word "c", .word "d"]]]) =
      .error (.orAndAndOnSameLevel (.orOp [.word "a", .word "b"])) := by
  simp [visit_andOp, visitChecked_cons, simplify_if_same, LNode.kind, LNode.children,
        bShould, mixCheck, is_must, is_should]

/-- C10 (amended): the ambiguity check never fires on a `Not` or `Prohibit`
child (it examines only boolean-composite kinds, so a negation node is a
grouping boundary): for any parent the mix condition is false on them, and an
`AndOperation` whose other direct children are plain words compiles
successfully when its `Not`/`Prohibit` child — even one wrapping an
`OrOperation`, with no `Group` in between — does. -/
theorem c10_negation_boundary (b : Builder) (os ds : List LNode) (pre suf : List String) :
    (∀ p : LNode, mixCheck b p (.lnot ds) = false ∧ mixCheck b p (.prohibit ds) = false) ∧
    ((∃ it, visit b (.lnot [.orOp os]) = .ok it) →
      ∃ its, visit b (.andOp (pre.map .word ++ .lnot [.orOp os] :: suf.map .word)) =
        .ok (.emust its defaultAttrs)) ∧
    ((∃ it, visit b (.prohibit [.orOp os]) = .ok it) →
      ∃ its, visit b (.andOp (pre.map .word ++ .prohibit [.orOp os] :: suf.map .word)) =
        .ok (.emust its defaultAttrs)) := by
  have hshape : ∀ (x : LNode) (l : List LNode),
      ∀ c ∈ (pre.map LNode.word ++ x :: suf.map LNode.word), (∃ v, c = .word v) ∨ c = x := by
    intro x l c hm
    rcases List.mem_append.mp hm with h | h
    · obtain ⟨v, _, rfl⟩ := List.mem_map.mp h
      exact Or.inl ⟨v, rfl⟩
    · rcases List.mem_cons.mp h with h | h
      · exact Or.inr h
      · obtain ⟨v, _, rfl⟩ := List.mem_map.mp h
        exact Or.inl ⟨v, rfl⟩
  refine ⟨?_, ?_, ?_⟩
  · intro p
    constructor <;> exact mixCheck_false_of_kinds (by rw [LNode.kind]; decide)
      (by rw [LNode.kind]; decide) (by rw [LNode.kind]; decide)
  · rintro ⟨it, hit⟩
    have hkinds : ∀ c ∈ (pre.map LNode.word ++ .lnot [.orOp os] :: suf.map LNode.word),
        c.kind ≠ .kAnd := by
      intro c hm
      rcases hshape _ [] c hm with ⟨v, rfl⟩ | rfl <;> rw [LNode.kind] <;> decide
    have hmix : ∀ c ∈ (pre.map LNode.word ++ .lnot [.orOp os] :: suf.map LNode.word),
        mixCheck b (.andOp (pre.map LNode.word ++ .lnot [.orOp os] :: suf.map LNode.word)) c
          = false := by
      intro c hm
      rcases hshape _ [] c hm with ⟨v, rfl⟩ | rfl <;>
        exact mixCheck_false_of_kinds (by rw [LNode.kind]; decide)
          (by rw [LNode.kind]; decide) (by rw [LNode.kind]; decide)
    have hok : ∀ c ∈ (pre.map LNode.word ++ .lnot [.orOp os] :: suf.map LNode.word),
        ∃ it2, visit b c = .ok it2 := by
      intro c hm
      rcases hshape _ [] c hm with ⟨v, rfl⟩ | rfl
      · exact ⟨_, visit_word b v⟩
      · exact ⟨it, hit⟩
    obtain ⟨its, hits⟩ := visitChecked_ok_of_all hmix hok
    refine ⟨its, ?_⟩
    rw [visit_andOp, simplify_eq_self hkinds, hits, ebind_ok]
  · rintro ⟨it, hit⟩
    have hkinds : ∀ c ∈ (pre.map LNode.word ++ .prohibit [.orOp os] :: suf.map LNode.word),
        c.kind ≠ .kAnd := by
      intro c hm
      rcases hshape _ [] c hm with ⟨v, rfl⟩ | rfl <;> rw [LNode.kind] <;> decide
    have hmix : ∀ c ∈ (pre.map LNode.word ++ .prohibit [.orOp os] :: suf.map LNode.word),
        mixCheck b (.andOp (pre.map LNode.word ++ .prohibit [.orOp os] :: suf.map LNode.word)) c
          = false := by
      intro c hm
      rcases hshape _ [] c hm with ⟨v, rfl⟩ | rfl <;>
        exact mixCheck_false_of_kinds (by rw [LNode.kind]; decide)
          (by rw [LNode.kind]; decide) (by rw [LNode.kind]; decide)
    have hok : ∀ c ∈ (pre.map LNode.word ++ .prohibit [.orOp os] :: suf.map LNode.word),
        ∃ it2, visit b c = .ok it2 := by
      intro c hm
      rcases hshape _ [] c hm with ⟨v, rfl⟩ | rfl
      · exact ⟨_, visit_word b v⟩
      · exact ⟨it, hit⟩
    obtain ⟨its, hits⟩ := visitChecked_ok_of_all hmix hok
    refine ⟨its, ?_⟩
    rw [visit_andOp, simplify_eq_self hkinds, hits, ebind_ok]

theorem c10_negation_boundary_witness :
    ∃ its, visit bShould (.andOp [.word "a", .lnot [.orOp [.word "b", .word "c"]]]) =
      .ok (.emust its defaultAttrs) :=
  (c10_negation_boundary bShould [.word "b", .word "c"] [] ["a"] []).2.1
    ⟨.emustNot [.eshould [.eword "b" { defaultAttrs with default_field := "text" },
                          .eword "c" { defaultAttrs with default_field := "text" }]
                  defaultAttrs] defaultAttrs,
     by simp [visit_lnot, visit_orOp, visit_word, visitList_cons, visitList_nil,
              visitChecked_cons, visitChecked_nil, simplify_if_same, LNode.kind,
              LNode.children, bShould, mixCheck, is_must, is_should, defaultAttrs]⟩

end Luqum
